import Mathlib

/-!
Verification development for the resumable book-generation pipeline.

The definitions below are a shallow embedding of the repository sources:

* `src/src/core/createbook.mjs` together with the `BookManager` of
  `src/src/core/book_manager.mjs` (the file appearing as `src/unnamed/part_001`)
  and `src/src/utils/state_manager.mjs` — the sequential page-by-page
  controller, its checkpoint writes and its per-page artifacts;
* the monolithic module appearing as `src/unnamed/part_002` — the
  `BookManager`/`BatchBookManager` classes, `createBookWithBatch` and
  `createBookPageByPage` variants, `addCharacter`, `translateContent`,
  `saveState`/`loadState`.

External effects (OpenAI calls, image generation, file writes) are modelled
as events recorded in a trace, with the text returned by the services
supplied by oracle parameters.  File-system persistence is modelled as the
value written: writing and re-reading a JSON document is taken to be the
identity on the structured value.
-/

namespace BookGen

/-- Association-list lookup; models JavaScript property read `obj[k]`. -/
def alistGet {α β : Type} [DecidableEq α] : List (α × β) → α → Option β
  | [], _ => none
  | (k', v') :: t, k => if k' = k then some v' else alistGet t k

/-- Association-list update; models JavaScript property write `obj[k] = v`
(an existing key keeps its position, a new key is appended). -/
def alistSet {α β : Type} [DecidableEq α] : List (α × β) → α → β → List (α × β)
  | [], k, v => [(k, v)]
  | (k', v') :: t, k, v => if k' = k then (k, v) :: t else (k', v') :: alistSet t k v

/-- Progress cursor of a book (`progressState` in both `BookManager` classes). -/
structure ProgressState where
  lastCompletedChapter : Nat
  lastCompletedPage : Nat
  status : String
  deriving Repr, DecidableEq

/-- Book-level metadata; the sequential controller only ever touches the
`coverImage` field, so the embedding keeps just that field. -/
structure Metadata where
  coverImage : Option String
  deriving Repr, DecidableEq

/-- `bookContent`: chapter number ↦ page number ↦ generated text, as the
nested plain objects used by both controllers. -/
abbrev ContentMap := List (Nat × List (Nat × String))

/-- Read `bookContent[c][p]`. -/
def lookupContent (cm : ContentMap) (c p : Nat) : Option String :=
  match alistGet cm c with
  | some pages => alistGet pages p
  | none => none

/-- Model of `if (!bookContent[c]) bookContent[c] = {}; bookContent[c][p] = s`. -/
def setContent (cm : ContentMap) (c p : Nat) (s : String) : ContentMap :=
  alistSet cm c (alistSet ((alistGet cm c).getD []) p s)

/-- In-memory fields of the core `BookManager` (src/src/core/book_manager.mjs)
that the sequential controller reads or writes.  The `characters` map and
`plotPoints` set created by the constructor are never touched by
`createBookPageByPage` in `createbook.mjs`, so they stay the constant empty
collections and are omitted from this model. -/
structure BookMgr where
  progressState : ProgressState
  bookContent : ContentMap
  outline : String
  metadata : Metadata
  deriving Repr, DecidableEq

/-- The record serialized by `BookManager.saveState` (the fields relevant to
the sequential controller; see `BookMgr` for the omitted constant fields). -/
structure SavedState where
  progress : ProgressState
  bookContent : ContentMap
  outline : String
  metadata : Metadata
  deriving Repr, DecidableEq

/-- Materialize the in-memory fields into a checkpoint record
(`BookManager.saveState`, src/src/core/book_manager.mjs lines 84-95). -/
def snapshot (m : BookMgr) : SavedState :=
  ⟨m.progressState, m.bookContent, m.outline, m.metadata⟩

/-- Restore in-memory fields wholesale from a loaded checkpoint
(`BookManager.loadState`, src/src/core/book_manager.mjs lines 97-109). -/
def applyState (s : SavedState) : BookMgr :=
  ⟨s.progress, s.bookContent, s.outline, s.metadata⟩

/-- Externally visible actions of the sequential controller, in order. -/
inductive Event where
  /-- the per-unit progress callback invocation -/
  | progressCb (chapter page : Nat)
  /-- a chat-completion call generating one page, with the user prompt sent -/
  | genCall (chapter page : Nat) (prompt : String)
  /-- the chat-completion call generating the outline -/
  | outlineCall (prompt : String)
  /-- a DALL-E image-generation call -/
  | imageGen (prompt : String)
  /-- the per-unit JSON artifact written by `saveProgress` -/
  | pageArtifact (chapter page : Nat) (content : String)
  /-- a full checkpoint written through `StateManager.saveState` -/
  | checkpoint (s : SavedState)
  deriving Repr, DecidableEq

/-- The user prompt built for one page in `createbook.mjs` line 60. -/
def mkPrompt (page chapter : Nat) (outline : String) : String :=
  "Write page " ++ toString page ++ " of chapter " ++ toString chapter ++
    ". Use the following outline as context: " ++ outline

/-- `BookManager.saveProgress` (src/src/core/book_manager.mjs lines 38-63):
writes the per-unit JSON artifact (the DOCX twin is subsumed into the same
event), advances the progress cursor to the unit just persisted, and writes a
full checkpoint via `saveState`.  The checkpoint is taken before the caller
has copied the page into `bookContent`. -/
def saveProgress (m : BookMgr) (content : String) (chapter page : Nat) :
    List Event × BookMgr :=
  let m' := { m with progressState := ⟨chapter, page, "in_progress"⟩ }
  ([Event.pageArtifact chapter page content, Event.checkpoint (snapshot m')], m')

/-- Inner page loop of `createBookPageByPage` (createbook.mjs lines 53-77):
for each page, invoke the progress callback, call the generation service,
and on success `saveProgress` then record the page into `bookContent`.
`gen` is the generation-service oracle; a `.error` models a failed call,
which aborts the loop. -/
def runPagesAux (gen : Nat → Nat → Except String String) (chapter : Nat) :
    List Nat → BookMgr → List Event × BookMgr × Option String
  | [], m => ([], m, none)
  | page :: rest, m =>
    let pre := [Event.progressCb chapter page,
                Event.genCall chapter page (mkPrompt page chapter m.outline)]
    match gen chapter page with
    | .error e => (pre, m, some e)
    | .ok content =>
      let sp := saveProgress m content chapter page
      let m2 := { sp.2 with bookContent := setContent sp.2.bookContent chapter page content }
      let r := runPagesAux gen chapter rest m2
      (pre ++ sp.1 ++ r.1, r.2)

/-- Page numbers `1..pagesPerChapter` iterated by the inner loop. -/
def pageList (pagesPerChapter : Nat) : List Nat := List.range' 1 pagesPerChapter

/-- Outer chapter loop of `createBookPageByPage` (createbook.mjs lines 52-79):
runs the page loop for each chapter and writes an additional checkpoint at
every chapter boundary; a page failure aborts the remaining chapters. -/
def runChaptersAux (gen : Nat → Nat → Except String String) (pagesPerChapter : Nat) :
    List Nat → BookMgr → List Event × BookMgr × Option String
  | [], m => ([], m, none)
  | c :: rest, m =>
    let r := runPagesAux gen c (pageList pagesPerChapter) m
    match r.2.2 with
    | some e => (r.1, r.2.1, some e)
    | none =>
      let r2 := runChaptersAux gen pagesPerChapter rest r.2.1
      (r.1 ++ [Event.checkpoint (snapshot r.2.1)] ++ r2.1, r2.2)

/-- State built by the `BookManager` constructor
(src/src/core/book_manager.mjs lines 7-22); the empty outline object is
modelled as the empty string. -/
def initialBookMgr : BookMgr :=
  ⟨⟨0, 0, "not_started"⟩, [], "", ⟨none⟩⟩

/-- Outline prompt of createbook.mjs line 26. -/
def outlinePrompt (theme : String) : String :=
  "Create a detailed outline for a book with the following theme: " ++ theme

/-- Cover prompt of createbook.mjs line 39 (identical in part_002 line 990). -/
def coverPrompt (theme : String) : String :=
  "Create a professional book cover for: " ++ theme

/-- Result of one sequential run. -/
structure SeqRun where
  trace : List Event
  mgr : BookMgr
  result : Except String Unit
  deriving Repr

/-- Resume-or-outline step of `createBookPageByPage` (createbook.mjs lines
19-35): restore a loaded checkpoint wholesale, or request a fresh outline. -/
def seqInit (outlineText theme : String) (loaded : Option SavedState) :
    List Event × BookMgr :=
  match loaded with
  | some s => ([], applyState s)
  | none => ([Event.outlineCall (outlinePrompt theme)],
             { initialBookMgr with outline := outlineText })

/-- Cover step of `createBookPageByPage` (createbook.mjs lines 37-48): an
image-generation call happens only when `metadata.coverImage` is unset. -/
def seqCover (imageUrl theme : String) (m : BookMgr) : List Event × BookMgr :=
  match m.metadata.coverImage with
  | some _ => ([], m)
  | none => ([Event.imageGen (coverPrompt theme)], { m with metadata := ⟨some imageUrl⟩ })

/-- Setup phase of `createBookPageByPage`: resume-or-outline, then cover. -/
def seqSetup (outlineText imageUrl theme : String) (loaded : Option SavedState) :
    List Event × BookMgr :=
  let s1 := seqInit outlineText theme loaded
  let s2 := seqCover imageUrl theme s1.2
  (s1.1 ++ s2.1, s2.2)

/-- Chapter numbers iterated by the outer loop:
`for (chapter = lastCompletedChapter + 1; chapter <= chapters; chapter++)`. -/
def seqChapters (chapters : Nat) (m : BookMgr) : List Nat :=
  List.range' (m.progressState.lastCompletedChapter + 1)
    (chapters + 1 - (m.progressState.lastCompletedChapter + 1))

/-- `createBookPageByPage` (src/src/core/createbook.mjs lines 13-97).
`loaded` is the value produced by `StateManager.loadState` (`none` when no
checkpoint exists); `outlineText` and `imageUrl` are the oracle texts
returned by the outline and cover calls.  On any failure inside the try
block the catch clause writes one checkpoint of the current state and
re-raises the same error. -/
def createBookPageByPage (gen : Nat → Nat → Except String String)
    (outlineText imageUrl theme : String) (loaded : Option SavedState)
    (chapters pagesPerChapter : Nat) : SeqRun :=
  let su := seqSetup outlineText imageUrl theme loaded
  let r := runChaptersAux gen pagesPerChapter (seqChapters chapters su.2) su.2
  match r.2.2 with
  | some e => ⟨su.1 ++ r.1 ++ [Event.checkpoint (snapshot r.2.1)], r.2.1, .error e⟩
  | none => ⟨su.1 ++ r.1, r.2.1, .ok ()⟩

/-- First (chapter, page) generation call of a trace. -/
def firstGenCall : List Event → Option (Nat × Nat)
  | [] => none
  | Event.genCall c p _ :: _ => some (c, p)
  | _ :: t => firstGenCall t

/-- First checkpoint record written in a trace. -/
def firstCheckpoint : List Event → Option SavedState
  | [] => none
  | Event.checkpoint s :: _ => some s
  | _ :: t => firstCheckpoint t

/-- Prompt of the first generation call for the given unit in a trace. -/
def findGenCallPrompt : List Event → Nat → Nat → Option String
  | [], _, _ => none
  | Event.genCall c p pr :: t, c₀, p₀ =>
    if c = c₀ ∧ p = p₀ then some pr else findGenCallPrompt t c₀ p₀
  | _ :: t, c₀, p₀ => findGenCallPrompt t c₀ p₀

/-- Unit (c', p') strictly precedes unit (c, p) in generation order. -/
def unitBelow (c p c' p' : Nat) : Prop := c' < c ∨ (c' = c ∧ p' < p)

/-- Unit (c', p') is at or before unit (c, p) in generation order. -/
def unitAtOrBelow (c p c' p' : Nat) : Prop := c' < c ∨ (c' = c ∧ p' ≤ p)

/-- Well-formedness of one checkpoint record with respect to its own cursor,
for a book with `P` pages per chapter: every valid unit strictly below the
cursor has a content entry, and every content entry is a valid unit at or
below the cursor. -/
def ckptOK (P : Nat) (s : SavedState) : Prop :=
  (∀ c' p', 1 ≤ c' → 1 ≤ p' → p' ≤ P →
      unitBelow s.progress.lastCompletedChapter s.progress.lastCompletedPage c' p' →
      (lookupContent s.bookContent c' p').isSome) ∧
  (∀ c' p', (lookupContent s.bookContent c' p').isSome →
      1 ≤ c' ∧ 1 ≤ p' ∧ p' ≤ P ∧
        unitAtOrBelow s.progress.lastCompletedChapter s.progress.lastCompletedPage c' p')

/-- The content map holds exactly the valid units at or before unit (c, p). -/
def contentThrough (cm : ContentMap) (P c p : Nat) : Prop :=
  ∀ c' p', (lookupContent cm c' p').isSome ↔
    (1 ≤ c' ∧ 1 ≤ p' ∧ p' ≤ P ∧ unitAtOrBelow c p c' p')

/-- The in-memory content map holds exactly the units up to the cursor. -/
def stateOK (P : Nat) (m : BookMgr) : Prop :=
  contentThrough m.bookContent P m.progressState.lastCompletedChapter
    m.progressState.lastCompletedPage

/-- Executable substring test: `strContains pat s` holds when `pat` occurs
as a contiguous substring of `s`. -/
def strContains (pat s : String) : Bool :=
  (List.range (s.length + 1)).any (fun i => pat.toList.isPrefixOf (s.toList.drop i))

/-- Modelled from the wording of the specification (section 4.3): the prompt
context as the concatenation of the outline excerpt, the previously generated
pages, the character table and the plot-point set, in that order.  Used only
to compare the claimed context against the one the code builds. -/
def specOrderContext (outlineExcerpt previousPages characterTable plotPointSet : String) :
    String :=
  outlineExcerpt ++ previousPages ++ characterTable ++ plotPointSet

/-! Model of the monolithic module `src/unnamed/part_002`. -/

namespace Mono

/-- Errors raised by the part_002 code paths that the claims mention. -/
inductive JsErr where
  | typeError (msg : String)
  | unsupportedLanguage (lang : String)
  deriving Repr, DecidableEq

/-- Externally visible actions of the batch pipeline. -/
inductive BEvent where
  /-- a chat-completion call, with a representative prompt payload -/
  | genCall (prompt : String)
  /-- a DALL-E image-generation call -/
  | imageGen (prompt : String)
  /-- upload and creation of the bulk batch job -/
  | submitBatch (taskCount : Nat)
  /-- a `saveState` checkpoint write -/
  | checkpoint
  deriving Repr, DecidableEq

/-- `supportedLanguages` of the part_002 `BookManager` constructor (line 48). -/
def supportedLanguages : List String := ["en", "es", "fr", "de", "it", "ja", "zh"]

/-- `BookManager.translateContent` (part_002 lines 519-539): throws the
unsupported-language error before any completion call when the target
language is not supported; otherwise makes one completion call, whose
result is supplied by the `translateSvc` oracle. -/
def translateContent (translateSvc : String → String) (content targetLanguage : String) :
    List BEvent × Except JsErr String :=
  if targetLanguage ∈ supportedLanguages then
    ([BEvent.genCall ("Translate the following text to " ++ targetLanguage ++
        ", maintaining the style and tone: " ++ content)],
      .ok (translateSvc content))
  else
    ([], .error (.unsupportedLanguage targetLanguage))

/-- One record of the part_002 `characters` map.  The object literal in
`addCharacter` spreads the `details` argument and then writes the
`firstAppearance` and `appearances` fields; the spread payload is kept as
the opaque `details` field, and the `Set` of appearance chapters is kept as
a list. -/
structure CharRecord where
  details : String
  firstAppearance : Nat
  appearances : List Nat
  deriving Repr, DecidableEq

/-- The part_002 `BookManager` fields read by `addCharacter`. -/
structure CharState where
  currentChapter : Nat
  characters : List (String × CharRecord)
  deriving Repr, DecidableEq

/-- `BookManager.addCharacter` (part_002 lines 472-478): unconditionally
`this.characters.set(name, { ...details, firstAppearance: this.currentChapter,
appearances: new Set([this.currentChapter]) })`. -/
def addCharacter (m : CharState) (name : String) (details : String) : CharState :=
  { m with characters :=
      alistSet m.characters name ⟨details, m.currentChapter, [m.currentChapter]⟩ }

/-- The user prompt built by `BookManager.generatePage` (part_002 lines
575-595), with the template whitespace normalized.  `previousPages` is the
string passed by `generateChapterPages`; `outlineEntry` is the value of
`this.outline[chapterNum] || rest`; `charactersStr` and `plotPointsStr` are
the serialized character table and plot-point set. -/
def pagePrompt (chapterNum pageNum : Nat)
    (previousPages outlineEntry charactersStr plotPointsStr : String) : String :=
  "You are writing page " ++ toString pageNum ++ " of chapter " ++ toString chapterNum ++
    ".\nContext from previous pages:\n" ++ previousPages ++
    "\nCurrent outline for this chapter:\n" ++ outlineEntry ++
    "\nKnown characters:\n" ++ charactersStr ++
    "\nImportant plot points:\n" ++ plotPointsStr ++
    "\nWrite the next page maintaining consistency with the story."

/-- The previous-page collection loop of `generateChapterPages` (part_002
lines 691-697): `for (let p = 1; p < page; p++)` load the page artifact and
push its content when present.  `store` is the artifact store read by
`loadProgress`; the argument `n` is `page - 1`, so pages `1..n` are visited
in increasing order. -/
def collectPreviousPages (store : Nat → Nat → Option String) (chapter : Nat) :
    Nat → List String
  | 0 => []
  | n + 1 =>
    collectPreviousPages store chapter n ++
      (match store chapter (n + 1) with
       | some s => [s]
       | none => [])

/-- Full previous-page context string: `previousPages.join('\n')`
(part_002 line 699). -/
def previousPagesContext (store : Nat → Nat → Option String) (chapter page : Nat) :
    String :=
  String.intercalate "\n" (collectPreviousPages store chapter (page - 1))

/-- JSON values, for the checkpoint document written by `saveState`. -/
inductive Json where
  | null
  | bool (b : Bool)
  | num (n : Int)
  | str (s : String)
  | arr (elems : List Json)
  | obj (fields : List (String × Json))

/-- Property read `j[k]` on a parsed JSON object. -/
def getField : Json → String → Option Json
  | .obj fields, k => alistGet fields k
  | _, _ => none

/-- In-memory state serialized by `saveState` and restored by `loadState`
(part_002 lines 440-470, and identically src/src/core/book_manager.mjs lines
84-109).  `characters` is the `Map` as its entry list; `plotPoints` is the
`Set` as its element list; the remaining fields hold arbitrary
JSON-serializable values, as the claim under scrutiny assumes. -/
structure FullState where
  progress : Json
  characters : List (String × Json)
  plotPoints : List String
  bookContent : Json
  outline : Json
  metadata : Json

/-- `saveState`: the JSON document written, with `Array.from(characters.entries())`
and `Array.from(plotPoints)` conversions. -/
def saveState (s : FullState) : Json :=
  .obj [("progress", s.progress),
        ("characters", .arr (s.characters.map (fun kv => .arr [.str kv.1, kv.2]))),
        ("plotPoints", .arr (s.plotPoints.map Json.str)),
        ("bookContent", s.bookContent),
        ("outline", s.outline),
        ("metadata", s.metadata)]

/-- One `[name, record]` entry of the serialized characters array. -/
def decodeCharEntry : Json → Option (String × Json)
  | .arr [.str k, v] => some (k, v)
  | _ => none

/-- A serialized plot point (stored as a string). -/
def decodeStr : Json → Option String
  | .str s => some s
  | _ => none

/-- Decode every element of a parsed JSON array, failing on the first
element the decoder rejects. -/
def decodeAll {α : Type} (f : Json → Option α) : List Json → Option (List α)
  | [] => some []
  | j :: t =>
    match f j, decodeAll f t with
    | some x, some xs => some (x :: xs)
    | _, _ => none

/-- `new Map(entries)`: entries are inserted in order; a repeated key keeps
its first position and takes the last value. -/
def jsMapFromEntries {β : Type} (l : List (String × β)) : List (String × β) :=
  l.foldl (fun acc kv => alistSet acc kv.1 kv.2) []

/-- `new Set(list)`: elements are inserted in order, duplicates dropped. -/
def jsSetFromList (l : List String) : List String :=
  l.foldl (fun acc x => if x ∈ acc then acc else acc ++ [x]) []

/-- `loadState` applied to the parsed checkpoint document: reads the six
fields and rebuilds `characters` via `new Map(...)` and `plotPoints` via
`new Set(...)`. -/
def loadState (j : Json) : Option FullState :=
  match getField j "progress", getField j "characters", getField j "plotPoints" with
  | some prog, some (.arr chEntries), some (.arr ppElems) =>
    match decodeAll decodeCharEntry chEntries, decodeAll decodeStr ppElems with
    | some chars, some pps =>
      match getField j "bookContent", getField j "outline", getField j "metadata" with
      | some bc, some ol, some md =>
        some ⟨prog, jsMapFromEntries chars, jsSetFromList pps, bc, ol, md⟩
      | _, _, _ => none
    | _, _ => none
  | _, _, _ => none

/-- A file-read failure, with its `error.code`. -/
structure ReadErr where
  code : String
  deriving Repr, DecidableEq

/-- part_002 `BookManager.loadState` (lines 453-470): the whole read, parse
and restore is wrapped in one `try`; the `read` oracle models
`fs.readFile` + `JSON.parse` + the field restore, and ANY failure lands in
the catch clause, which logs and returns `false` leaving the state as it
was. -/
def monoLoadState (read : Except ReadErr FullState) (m : FullState) :
    Bool × FullState :=
  match read with
  | .ok st => (true, st)
  | .error _ => (false, m)

/-- Method names defined on the part_002 `BookManager` class body
(lines 27-858), in source order, for prototype-chain lookup. -/
def bookManagerMethodNames : List String :=
  ["constructor", "initialize", "saveProgress", "saveAsDocx",
   "formatContentWithStyles", "isDialogue", "isSceneBreak", "getChapterSubtitle",
   "loadProgress", "compileBook", "createOutline", "continueStory",
   "exportToFormat", "saveMetadata", "loadMetadata", "saveState", "loadState",
   "addCharacter", "checkConsistency", "editAndProofread", "translateContent",
   "formatContent", "formatHTML", "generatePage", "extractMetadata",
   "generateChapterPages", "saveOutline", "generateTableOfContents",
   "generateTocEntries", "initializeBookMetadata"]

/-- One parsed batch result as consumed by `processBatchResults`. -/
structure BatchResult where
  chapterNum : Nat
  content : String
  deriving Repr, DecidableEq

/-- The `BatchBookManager` fields that the batch pipeline reads or writes. -/
structure BatchState where
  progressState : ProgressState
  bookContent : ContentMap
  outline : String
  metadata : Metadata
  deriving Repr, DecidableEq

/-- The result-merging loop body of `BatchBookManager.processBatchResults`
(part_002 lines 952-970): per result one consistency-check call and one
edit call, then `lastCompletedChapter := max(lastCompletedChapter,
result.chapterNum)` and a `saveState` checkpoint.  Note the loop writes
nothing into `bookContent` and discards the edited content, exactly as the
source does. -/
def processBatchResultsLoop : List BatchResult → BatchState → List BEvent × BatchState
  | [], m => ([], m)
  | r :: rest, m =>
    let ev1 := BEvent.genCall
      ("Check this content against known characters and plot points: " ++ r.content)
    let ev2 := BEvent.genCall ("Edit and proofread: " ++ r.content)
    let m1 := { m with progressState :=
        { m.progressState with
          lastCompletedChapter := max m.progressState.lastCompletedChapter r.chapterNum } }
    let r2 := processBatchResultsLoop rest m1
    (ev1 :: ev2 :: BEvent.checkpoint :: r2.1, r2.2)

/-- `BatchBookManager.processBatchResults` (part_002 lines 949-971).  Its
first statement evaluates `super.processBatchResults(resultFileId)`; the
parent `BookManager` class defines no method of that name
(see `bookManagerMethodNames`), so in JavaScript the property lookup yields
`undefined` and the call throws a `TypeError` before the loop runs.
`superResults` stands for the value the parent call would have produced and
is consumed only on the (dead) branch in which the parent method existed. -/
def processBatchResults (m : BatchState) (resultFileId : String)
    (superResults : List BatchResult) : List BEvent × BatchState × Except JsErr Unit :=
  if "processBatchResults" ∈ bookManagerMethodNames then
    let r := processBatchResultsLoop superResults m
    (r.1, r.2, .ok ())
  else
    ([], m, .error (.typeError "super.processBatchResults is not a function"))

/-- The per-chapter translation loop of `createBookWithBatch` (part_002
lines 1016-1025): for each chapter key, translate only `bookContent[chapter][1]`
and write it back.  A missing page-1 entry is passed through as the
JavaScript `undefined` placeholder string. -/
def translateChaptersAux (translateSvc : String → String) (language : String) :
    List Nat → BatchState → List BEvent × BatchState × Except JsErr Unit
  | [], m => ([], m, .ok ())
  | c :: rest, m =>
    let content := (lookupContent m.bookContent c 1).getD "undefined"
    let t := translateContent translateSvc content language
    match t.2 with
    | .error e => (t.1, m, .error e)
    | .ok translated =>
      let m1 := { m with bookContent := setContent m.bookContent c 1 translated }
      let r := translateChaptersAux translateSvc language rest m1
      (t.1 ++ r.1, r.2)

/-- The `if (language !== 'en')` translation step of `createBookWithBatch`. -/
def translateStep (translateSvc : String → String) (language : String)
    (m : BatchState) : List BEvent × BatchState × Except JsErr Unit :=
  if language = "en" then ([], m, .ok ())
  else translateChaptersAux translateSvc language (m.bookContent.map Prod.fst) m

/-- `createBookWithBatch` (part_002 lines 974-1049).  Steps in source
order: outline call, unconditional cover-image call, batch-task creation
and submission, polling (no state effect, elided), `processBatchResults`,
then the optional translation step; the catch clause writes one `saveState`
checkpoint and re-raises.  Oracles: `translateSvc` for translation output,
`outlineText` for the outline call, `superResults` as in
`processBatchResults`. -/
def createBookWithBatch (translateSvc : String → String) (outlineText : String)
    (loaded : Option BatchState) (theme : String) (chapters : Nat) (language : String)
    (superResults : List BatchResult) : List BEvent × BatchState × Except JsErr Unit :=
  let m0 : BatchState := ⟨⟨0, 0, "not_started"⟩, [], "", ⟨none⟩⟩
  let m1 := match loaded with
    | some s => s
    | none => m0
  let ev1 := [BEvent.genCall ("Create a detailed book outline for a " ++
    toString chapters ++ "-chapter book about " ++ theme)]
  let m2 := { m1 with outline := outlineText }
  let ev2 := [BEvent.imageGen (coverPrompt theme)]
  let ev3 := [BEvent.submitBatch chapters]
  let rp := processBatchResults m2 "batch_output_file" superResults
  match rp.2.2 with
  | .error e => (ev1 ++ ev2 ++ ev3 ++ rp.1 ++ [BEvent.checkpoint], rp.2.1, .error e)
  | .ok _ =>
    let rt := translateStep translateSvc language rp.2.1
    match rt.2.2 with
    | .error e => (ev1 ++ ev2 ++ ev3 ++ rp.1 ++ rt.1 ++ [BEvent.checkpoint], rt.2.1, .error e)
    | .ok _ => (ev1 ++ ev2 ++ ev3 ++ rp.1 ++ rt.1, rt.2.1, .ok ())

end Mono

/-- `StateManager.loadState` (src/src/utils/state_manager.mjs lines 18-28):
a read failure whose `code` is `ENOENT` is normalized to the absent-state
result `null`; any other failure is logged and re-thrown. -/
def StateManager.loadState {St : Type} (read : Except Mono.ReadErr St) :
    Except Mono.ReadErr (Option St) :=
  match read with
  | .ok s => .ok (some s)
  | .error e => if e.code = "ENOENT" then .ok none else .error e

/-! Concrete fixtures used by witnesses and counterexamples. -/

/-- Generation oracle that always succeeds. -/
def genOkW : Nat → Nat → Except String String := fun _ _ => .ok "PAGE"

/-- Generation oracle failing at unit (1, 2). -/
def genFailW : Nat → Nat → Except String String :=
  fun c p => if c = 1 ∧ p = 2 then .error "boom" else .ok "PAGE"

/-- Generation oracle returning a recognizable text for unit (1, 1). -/
def genPrevW : Nat → Nat → Except String String :=
  fun c p => if c = 1 ∧ p = 1 then .ok "UNIQUEPREVPAGETEXT" else .ok "PAGE"

/-- A loaded checkpoint whose cursor sits mid-chapter: chapter 1, page 1. -/
def sW : SavedState :=
  ⟨⟨1, 1, "in_progress"⟩, [(1, [(1, "p11")])], "OUTLINE", ⟨some "cover"⟩⟩

/-- A loaded batch state whose cover image is already set. -/
def bW : Mono.BatchState :=
  ⟨⟨0, 0, "not_started"⟩, [], "", ⟨some "cover"⟩⟩

/-- A character table owning one record with two recorded appearances. -/
def charW : Mono.CharState :=
  ⟨3, [("Ava", ⟨"old hero", 1, [1, 2]⟩)]⟩

/-- A JSON-serializable in-memory state for the save/load round trip. -/
def fsW : Mono.FullState :=
  ⟨.obj [("lastCompletedChapter", .num 1), ("lastCompletedPage", .num 2),
         ("status", .str "in_progress")],
   [("Ava", .obj [("description", .str "old hero")]),
    ("Bo", .str "sidekick")],
   ["pp1", "pp2"],
   .obj [("1", .obj [("1", .str "p11")])],
   .str "OUTLINE",
   .obj [("title", .str "Drake Legacy")]⟩

/-- An in-memory state unaffected by a failed load. -/
def fs0 : Mono.FullState :=
  ⟨.null, [], [], .null, .null, .null⟩

/-! Basic facts about the page and chapter loops. -/

theorem alistGet_alistSet {α β : Type} [DecidableEq α] (l : List (α × β)) (k k' : α) (v : β) :
    alistGet (alistSet l k v) k' = if k = k' then some v else alistGet l k' := by
  induction l with
  | nil => simp [alistSet, alistGet]
  | cons hd t ih =>
    obtain ⟨k₀, v₀⟩ := hd
    by_cases h0 : k₀ = k
    · subst h0
      by_cases h1 : k₀ = k' <;> simp [alistSet, alistGet, h1]
    · by_cases h1 : k₀ = k'
      · subst h1
        have hkk : ¬ k = k₀ := fun h => h0 h.symm
        simp [alistSet, alistGet, h0, hkk]
      · simp [alistSet, alistGet, h0, h1, ih]

theorem lookupContent_setContent (cm : ContentMap) (c p c' p' : Nat) (s : String) :
    lookupContent (setContent cm c p s) c' p' =
      if c = c' ∧ p = p' then some s else lookupContent cm c' p' := by
  unfold setContent lookupContent
  by_cases hc : c = c'
  · subst hc
    cases h : alistGet cm c with
    | some pages =>
      by_cases hp : p = p' <;> simp [h, hp, alistGet_alistSet]
    | none =>
      by_cases hp : p = p' <;> simp [h, hp, alistGet_alistSet, alistGet]
  · simp [hc, alistGet_alistSet]

theorem runPagesAux_state (gen : Nat → Nat → Except String String) (c : Nat)
    (pages : List Nat) (m : BookMgr) :
    (runPagesAux gen c pages m).2.1.outline = m.outline ∧
      (runPagesAux gen c pages m).2.1.metadata = m.metadata := by
  induction pages generalizing m with
  | nil => simp [runPagesAux]
  | cons page rest ih =>
    cases hg : gen c page with
    | error e => simp [runPagesAux, hg]
    | ok content => simpa [runPagesAux, hg, saveProgress] using ih _

theorem runChaptersAux_state (gen : Nat → Nat → Except String String) (P : Nat)
    (chs : List Nat) (m : BookMgr) :
    (runChaptersAux gen P chs m).2.1.outline = m.outline ∧
      (runChaptersAux gen P chs m).2.1.metadata = m.metadata := by
  induction chs generalizing m with
  | nil => simp [runChaptersAux]
  | cons c rest ih =>
    have hp := runPagesAux_state gen c (pageList P) m
    cases hr : (runPagesAux gen c (pageList P) m).2.2 with
    | some e => simp only [runChaptersAux, hr]; exact hp
    | none =>
      have := ih (runPagesAux gen c (pageList P) m).2.1
      simp only [runChaptersAux, hr]
      exact ⟨this.1.trans hp.1, this.2.trans hp.2⟩

theorem imageGen_not_mem_runPagesAux (gen : Nat → Nat → Except String String)
    (c : Nat) (pages : List Nat) (m : BookMgr) (pr : String) :
    Event.imageGen pr ∉ (runPagesAux gen c pages m).1 := by
  induction pages generalizing m with
  | nil => simp [runPagesAux]
  | cons page rest ih =>
    cases hg : gen c page with
    | error e => simp [runPagesAux, hg]
    | ok content => simp [runPagesAux, hg, saveProgress, ih]

theorem imageGen_not_mem_runChaptersAux (gen : Nat → Nat → Except String String)
    (P : Nat) (chs : List Nat) (m : BookMgr) (pr : String) :
    Event.imageGen pr ∉ (runChaptersAux gen P chs m).1 := by
  induction chs generalizing m with
  | nil => simp [runChaptersAux]
  | cons c rest ih =>
    cases hr : (runPagesAux gen c (pageList P) m).2.2 with
    | some e => simp [runChaptersAux, hr, imageGen_not_mem_runPagesAux]
    | none => simp [runChaptersAux, hr, imageGen_not_mem_runPagesAux, ih]

theorem runPagesAux_content_other (gen : Nat → Nat → Except String String)
    (c : Nat) (pages : List Nat) (m : BookMgr) (c' p' : Nat) (hc : c' ≠ c) :
    lookupContent (runPagesAux gen c pages m).2.1.bookContent c' p' =
      lookupContent m.bookContent c' p' := by
  induction pages generalizing m with
  | nil => simp [runPagesAux]
  | cons page rest ih =>
    cases hg : gen c page with
    | error e => simp [runPagesAux, hg]
    | ok content =>
      simp only [runPagesAux, hg, saveProgress]
      rw [ih, lookupContent_setContent, if_neg (fun hp => hc hp.1.symm)]

theorem runChaptersAux_content_other (gen : Nat → Nat → Except String String)
    (P : Nat) (chs : List Nat) (m : BookMgr) (c' p' : Nat) :
    c' ∉ chs →
      lookupContent (runChaptersAux gen P chs m).2.1.bookContent c' p' =
        lookupContent m.bookContent c' p' := by
  induction chs generalizing m with
  | nil => intro _; simp [runChaptersAux]
  | cons c rest ih =>
    intro hc
    have hcc : c' ≠ c := fun h => hc (h ▸ List.mem_cons_self c rest)
    have hcr : c' ∉ rest := fun h => hc (List.mem_cons_of_mem c h)
    cases hr : (runPagesAux gen c (pageList P) m).2.2 with
    | some e =>
      simp only [runChaptersAux, hr]
      exact runPagesAux_content_other gen c (pageList P) m c' p' hcc
    | none =>
      simp only [runChaptersAux, hr]
      rw [ih _ hcr]
      exact runPagesAux_content_other gen c (pageList P) m c' p' hcc

theorem runPagesAux_genCall_mem (gen : Nat → Nat → Except String String)
    (c : Nat) (pages : List Nat) (m : BookMgr) (c' p' : Nat) (pr : String) :
    Event.genCall c' p' pr ∈ (runPagesAux gen c pages m).1 →
      c' = c ∧ p' ∈ pages ∧ pr = mkPrompt p' c m.outline := by
  induction pages generalizing m with
  | nil => intro h; simp [runPagesAux] at h
  | cons page rest ih =>
    intro h
    cases hg : gen c page with
    | error e =>
      simp only [runPagesAux, hg] at h
      rcases List.mem_cons.mp h with h | h
      · exact Event.noConfusion h
      rcases List.mem_cons.mp h with h | h
      · injection h with h1 h2 h3
        subst h1; subst h2
        exact ⟨rfl, List.mem_cons_self _ _, h3⟩
      · simp at h
    | ok content =>
      simp only [runPagesAux, hg] at h
      rcases List.mem_append.mp h with h | h
      · rcases List.mem_append.mp h with h | h
        · rcases List.mem_cons.mp h with h | h
          · exact Event.noConfusion h
          rcases List.mem_cons.mp h with h | h
          · injection h with h1 h2 h3
            subst h1; subst h2
            exact ⟨rfl, List.mem_cons_self _ _, h3⟩
          · simp at h
        · simp only [saveProgress] at h
          rcases List.mem_cons.mp h with h | h
          · exact Event.noConfusion h
          rcases List.mem_cons.mp h with h | h
          · exact Event.noConfusion h
          · simp at h
      · have := ih _ h
        refine ⟨this.1, List.mem_cons_of_mem _ this.2.1, ?_⟩
        rw [this.2.2]
        rfl

theorem runChaptersAux_genCall_mem (gen : Nat → Nat → Except String String)
    (P : Nat) (chs : List Nat) (m : BookMgr) (c' p' : Nat) (pr : String) :
    Event.genCall c' p' pr ∈ (runChaptersAux gen P chs m).1 →
      c' ∈ chs ∧ p' ∈ pageList P ∧ pr = mkPrompt p' c' m.outline := by
  induction chs generalizing m with
  | nil => intro h; simp [runChaptersAux] at h
  | cons c rest ih =>
    intro h
    cases hr : (runPagesAux gen c (pageList P) m).2.2 with
    | some e =>
      simp only [runChaptersAux, hr] at h
      have := runPagesAux_genCall_mem gen c (pageList P) m c' p' pr h
      exact ⟨this.1 ▸ List.mem_cons_self c rest, this.2.1, this.1 ▸ this.2.2⟩
    | none =>
      simp only [runChaptersAux, hr] at h
      rcases List.mem_append.mp h with h | h
      · rcases List.mem_append.mp h with h | h
        · have := runPagesAux_genCall_mem gen c (pageList P) m c' p' pr h
          exact ⟨this.1 ▸ List.mem_cons_self c rest, this.2.1, this.1 ▸ this.2.2⟩
        · rcases List.mem_cons.mp h with h | h
          · exact Event.noConfusion h
          · simp at h
      · have := ih _ h
        refine ⟨List.mem_cons_of_mem _ this.1, this.2.1, ?_⟩
        rw [this.2.2, (runPagesAux_state gen c (pageList P) m).1]

theorem runPagesAux_ok_genCalls (gen : Nat → Nat → Except String String)
    (c : Nat) (pages : List Nat) (m : BookMgr) (c' p' : Nat) (pr : String) :
    (runPagesAux gen c pages m).2.2 = none →
      Event.genCall c' p' pr ∈ (runPagesAux gen c pages m).1 →
        ∃ out, gen c' p' = .ok out := by
  induction pages generalizing m with
  | nil => intro _ hm; simp [runPagesAux] at hm
  | cons page rest ih =>
    intro h hm
    cases hg : gen c page with
    | error e => simp [runPagesAux, hg] at h
    | ok content =>
      simp only [runPagesAux, hg] at h hm
      rcases List.mem_append.mp hm with hm | hm
      · rcases List.mem_append.mp hm with hm | hm
        · rcases List.mem_cons.mp hm with hm | hm
          · exact Event.noConfusion hm
          rcases List.mem_cons.mp hm with hm | hm
          · injection hm with h1 h2 h3
            subst h1; subst h2
            exact ⟨content, hg⟩
          · simp at hm
        · simp only [saveProgress] at hm
          rcases List.mem_cons.mp hm with hm | hm
          · exact Event.noConfusion hm
          rcases List.mem_cons.mp hm with hm | hm
          · exact Event.noConfusion hm
          · simp at hm
      · exact ih _ h hm

theorem runChaptersAux_ok_genCalls (gen : Nat → Nat → Except String String)
    (P : Nat) (chs : List Nat) (m : BookMgr) (c' p' : Nat) (pr : String) :
    (runChaptersAux gen P chs m).2.2 = none →
      Event.genCall c' p' pr ∈ (runChaptersAux gen P chs m).1 →
        ∃ out, gen c' p' = .ok out := by
  induction chs generalizing m with
  | nil => intro _ hm; simp [runChaptersAux] at hm
  | cons c rest ih =>
    intro h hm
    cases hr : (runPagesAux gen c (pageList P) m).2.2 with
    | some e => simp [runChaptersAux, hr] at h
    | none =>
      simp only [runChaptersAux, hr] at h hm
      rcases List.mem_append.mp hm with hm | hm
      · rcases List.mem_append.mp hm with hm | hm
        · exact runPagesAux_ok_genCalls gen c (pageList P) m c' p' pr hr hm
        · rcases List.mem_cons.mp hm with hm | hm
          · exact Event.noConfusion hm
          · simp at hm
      · exact ih _ h hm

theorem runPagesAux_err (gen : Nat → Nat → Except String String)
    (c : Nat) (pages : List Nat) (m : BookMgr) (e : String) :
    (runPagesAux gen c pages m).2.2 = some e →
      ∃ t c₀ p₀ pr, (runPagesAux gen c pages m).1 =
          t ++ [Event.progressCb c₀ p₀, Event.genCall c₀ p₀ pr] ∧
        gen c₀ p₀ = .error e := by
  induction pages generalizing m with
  | nil => intro h; simp [runPagesAux] at h
  | cons page rest ih =>
    intro h
    cases hg : gen c page with
    | error e' =>
      simp only [runPagesAux, hg, Option.some.injEq] at h
      subst h
      exact ⟨[], c, page, mkPrompt page c m.outline, by simp [runPagesAux, hg], hg⟩
    | ok content =>
      simp only [runPagesAux, hg] at h
      obtain ⟨t, c₀, p₀, pr, ht, hgen⟩ := ih _ h
      refine ⟨[Event.progressCb c page,
          Event.genCall c page (mkPrompt page c m.outline)] ++
          (saveProgress m content c page).1 ++ t, c₀, p₀, pr, ?_, hgen⟩
      simp only [runPagesAux, hg]
      rw [ht]
      simp

theorem runChaptersAux_err (gen : Nat → Nat → Except String String)
    (P : Nat) (chs : List Nat) (m : BookMgr) (e : String) :
    (runChaptersAux gen P chs m).2.2 = some e →
      ∃ t c₀ p₀ pr, (runChaptersAux gen P chs m).1 =
          t ++ [Event.progressCb c₀ p₀, Event.genCall c₀ p₀ pr] ∧
        gen c₀ p₀ = .error e := by
  induction chs generalizing m with
  | nil => intro h; simp [runChaptersAux] at h
  | cons c rest ih =>
    intro h
    cases hr : (runPagesAux gen c (pageList P) m).2.2 with
    | some e' =>
      simp only [runChaptersAux, hr, Option.some.injEq] at h
      subst h
      obtain ⟨t, c₀, p₀, pr, ht, hgen⟩ := runPagesAux_err gen c (pageList P) m e' hr
      exact ⟨t, c₀, p₀, pr, by simp only [runChaptersAux, hr]; exact ht, hgen⟩
    | none =>
      simp only [runChaptersAux, hr] at h
      obtain ⟨t, c₀, p₀, pr, ht, hgen⟩ := ih _ h
      refine ⟨(runPagesAux gen c (pageList P) m).1 ++
          [Event.checkpoint (snapshot (runPagesAux gen c (pageList P) m).2.1)] ++ t,
        c₀, p₀, pr, ?_, hgen⟩
      simp only [runChaptersAux, hr]
      rw [ht]
      simp

theorem runPagesAux_trace_head (gen : Nat → Nat → Except String String)
    (c page : Nat) (rest : List Nat) (m : BookMgr) :
    ∃ t, (runPagesAux gen c (page :: rest) m).1 =
      Event.progressCb c page ::
        Event.genCall c page (mkPrompt page c m.outline) :: t := by
  cases hg : gen c page with
  | error e => exact ⟨[], by simp [runPagesAux, hg]⟩
  | ok content =>
    refine ⟨(saveProgress m content c page).1 ++
      (runPagesAux gen c rest
        { (saveProgress m content c page).2 with
          bookContent :=
            setContent (saveProgress m content c page).2.bookContent c page content }).1,
      ?_⟩
    simp [runPagesAux, hg]

@[simp] theorem firstGenCall_nil : firstGenCall [] = none := rfl

@[simp] theorem firstGenCall_cons_progressCb (c p : Nat) (l : List Event) :
    firstGenCall (Event.progressCb c p :: l) = firstGenCall l := rfl

@[simp] theorem firstGenCall_cons_genCall (c p : Nat) (pr : String) (l : List Event) :
    firstGenCall (Event.genCall c p pr :: l) = some (c, p) := rfl

@[simp] theorem firstGenCall_cons_outlineCall (pr : String) (l : List Event) :
    firstGenCall (Event.outlineCall pr :: l) = firstGenCall l := rfl

@[simp] theorem firstGenCall_cons_imageGen (pr : String) (l : List Event) :
    firstGenCall (Event.imageGen pr :: l) = firstGenCall l := rfl

@[simp] theorem firstGenCall_cons_pageArtifact (c p : Nat) (s : String) (l : List Event) :
    firstGenCall (Event.pageArtifact c p s :: l) = firstGenCall l := rfl

@[simp] theorem firstGenCall_cons_checkpoint (s : SavedState) (l : List Event) :
    firstGenCall (Event.checkpoint s :: l) = firstGenCall l := rfl

theorem firstGenCall_append_some (t₁ t₂ : List Event) (x : Nat × Nat)
    (h : firstGenCall t₁ = some x) : firstGenCall (t₁ ++ t₂) = some x := by
  induction t₁ with
  | nil => simp at h
  | cons ev t ih =>
    cases ev
    case genCall c p pr => simpa using h
    all_goals simp at h ⊢
    all_goals exact ih h

theorem firstGenCall_runChaptersAux (gen : Nat → Nat → Except String String)
    (k : Nat) (c : Nat) (rest : List Nat) (m : BookMgr) :
    firstGenCall (runChaptersAux gen (k + 1) (c :: rest) m).1 = some (c, 1) := by
  have hpl : pageList (k + 1) = 1 :: List.range' 2 k := by
    simp [pageList, List.range'_succ]
  obtain ⟨t, ht⟩ := runPagesAux_trace_head gen c 1 (List.range' 2 k) m
  cases hr : (runPagesAux gen c (pageList (k + 1)) m).2.2 with
  | some e =>
    simp only [runChaptersAux, hr]
    rw [hpl] at hr ⊢
    rw [ht]
    simp [firstGenCall]
  | none =>
    simp only [runChaptersAux, hr]
    rw [hpl] at hr ⊢
    rw [ht]
    simp [firstGenCall]

theorem seqCover_trace_no_genCall (imageUrl theme : String) (m : BookMgr)
    (c p : Nat) (pr : String) :
    Event.genCall c p pr ∉ (seqCover imageUrl theme m).1 := by
  cases h : m.metadata.coverImage <;> simp [seqCover, h]

theorem seqCover_mgr (imageUrl theme : String) (m : BookMgr) :
    (seqCover imageUrl theme m).2.progressState = m.progressState ∧
      (seqCover imageUrl theme m).2.bookContent = m.bookContent ∧
      (seqCover imageUrl theme m).2.outline = m.outline := by
  cases h : m.metadata.coverImage <;> simp [seqCover, h]

theorem firstGenCall_seqCover_append (imageUrl theme : String) (m : BookMgr)
    (l : List Event) :
    firstGenCall ((seqCover imageUrl theme m).1 ++ l) = firstGenCall l := by
  cases h : m.metadata.coverImage <;> simp [seqCover, h]

theorem seqSetup_no_genCall (outlineText imageUrl theme : String)
    (loaded : Option SavedState) (c p : Nat) (pr : String) :
    Event.genCall c p pr ∉ (seqSetup outlineText imageUrl theme loaded).1 := by
  cases loaded with
  | none =>
    cases h : (initialBookMgr.metadata).coverImage <;>
      simp [seqSetup, seqInit, seqCover, initialBookMgr] at h ⊢
  | some s =>
    cases h : s.metadata.coverImage <;>
      simp [seqSetup, seqInit, seqCover, applyState, h]

theorem seqSetup_no_checkpoint (outlineText imageUrl theme : String)
    (loaded : Option SavedState) (st : SavedState) :
    Event.checkpoint st ∉ (seqSetup outlineText imageUrl theme loaded).1 := by
  cases loaded with
  | none =>
    cases h : (initialBookMgr.metadata).coverImage <;>
      simp [seqSetup, seqInit, seqCover, initialBookMgr] at h ⊢
  | some s =>
    cases h : s.metadata.coverImage <;>
      simp [seqSetup, seqInit, seqCover, applyState, h]

/-- C1 (corrected): resuming the sequential controller from a checkpoint
with cursor (c, p) always begins generation at unit (c + 1, 1), regardless
of whether p < pagesPerChapter (so a partially generated chapter is
skipped, not continued), every generation call of the resumed run targets a
chapter above c, and no existing content entry of a chapter ≤ c is
regenerated or overwritten. -/
theorem C1_resume_amended (gen : Nat → Nat → Except String String)
    (outlineText imageUrl theme : String) (s : SavedState) (chapters P : Nat)
    (hc : s.progress.lastCompletedChapter < chapters) (hP : 1 ≤ P) :
    firstGenCall
        (createBookPageByPage gen outlineText imageUrl theme (some s) chapters P).trace =
      some (s.progress.lastCompletedChapter + 1, 1) ∧
    (∀ c' p' pr,
      Event.genCall c' p' pr ∈
          (createBookPageByPage gen outlineText imageUrl theme (some s) chapters P).trace →
        s.progress.lastCompletedChapter + 1 ≤ c') ∧
    (∀ c' p', c' ≤ s.progress.lastCompletedChapter →
      lookupContent
          (createBookPageByPage gen outlineText imageUrl theme
            (some s) chapters P).mgr.bookContent c' p' =
        lookupContent s.bookContent c' p') := by
  obtain ⟨k, rfl⟩ : ∃ k, P = k + 1 := ⟨P - 1, by omega⟩
  obtain ⟨j, hj⟩ : ∃ j, chapters + 1 - (s.progress.lastCompletedChapter + 1) = j + 1 :=
    ⟨chapters - (s.progress.lastCompletedChapter + 1), by omega⟩
  have hcov := seqCover_mgr imageUrl theme (applyState s)
  have hprog : (seqCover imageUrl theme (applyState s)).2.progressState = s.progress :=
    hcov.1
  have hbc : (seqCover imageUrl theme (applyState s)).2.bookContent = s.bookContent :=
    hcov.2.1
  have hchs : List.range'
      ((seqCover imageUrl theme (applyState s)).2.progressState.lastCompletedChapter + 1)
      (chapters + 1 -
        ((seqCover imageUrl theme (applyState s)).2.progressState.lastCompletedChapter + 1)) =
      (s.progress.lastCompletedChapter + 1) ::
        List.range' (s.progress.lastCompletedChapter + 2) j := by
    rw [hprog, hj, List.range'_succ]
  have hnotmem : ∀ c' : Nat, c' ≤ s.progress.lastCompletedChapter →
      c' ∉ (s.progress.lastCompletedChapter + 1) ::
        List.range' (s.progress.lastCompletedChapter + 2) j := by
    intro c' hcle hmem
    rcases List.mem_cons.mp hmem with h | h
    · omega
    · have := (List.mem_range'_1.mp h).1
      omega
  simp only [createBookPageByPage, seqSetup, seqInit, seqChapters]
  rw [hchs]
  cases hr : (runChaptersAux gen (k + 1)
      ((s.progress.lastCompletedChapter + 1) ::
        List.range' (s.progress.lastCompletedChapter + 2) j)
      (seqCover imageUrl theme (applyState s)).2).2.2 with
  | some e =>
    simp only [hr]
    refine ⟨?_, ?_, ?_⟩
    · show firstGenCall ((([] ++ _) ++ _) ++ _) = _
      rw [List.nil_append]
      exact firstGenCall_append_some _ _ _
        (by rw [firstGenCall_seqCover_append]
            exact firstGenCall_runChaptersAux gen k _ _ _)
    · intro c' p' pr hm
      simp only [List.nil_append, List.mem_append, List.mem_singleton] at hm
      rcases hm with (hm | hm) | hm
      · exact absurd hm (seqCover_trace_no_genCall imageUrl theme (applyState s) c' p' pr)
      · have hmm := runChaptersAux_genCall_mem gen (k + 1) _ _ c' p' pr hm
        rcases List.mem_cons.mp hmm.1 with h | h
        · omega
        · have := (List.mem_range'_1.mp h).1
          omega
      · exact Event.noConfusion hm
    · intro c' p' hcle
      show lookupContent (runChaptersAux _ _ _ _).2.1.bookContent c' p' = _
      rw [runChaptersAux_content_other gen (k + 1) _ _ c' p' (hnotmem c' hcle), hbc]
  | none =>
    simp only [hr]
    refine ⟨?_, ?_, ?_⟩
    · show firstGenCall (([] ++ _) ++ _) = _
      rw [List.nil_append]
      rw [firstGenCall_seqCover_append]
      exact firstGenCall_runChaptersAux gen k _ _ _
    · intro c' p' pr hm
      simp only [List.nil_append, List.mem_append] at hm
      rcases hm with hm | hm
      · exact absurd hm (seqCover_trace_no_genCall imageUrl theme (applyState s) c' p' pr)
      · have hmm := runChaptersAux_genCall_mem gen (k + 1) _ _ c' p' pr hm
        rcases List.mem_cons.mp hmm.1 with h | h
        · omega
        · have := (List.mem_range'_1.mp h).1
          omega
    · intro c' p' hcle
      show lookupContent (runChaptersAux _ _ _ _).2.1.bookContent c' p' = _
      rw [runChaptersAux_content_other gen (k + 1) _ _ c' p' (hnotmem c' hcle), hbc]

/-- C1 witness: the amended resume behavior at a concrete mid-chapter
checkpoint (cursor (1, 1), 2 chapters, 2 pages per chapter). -/
theorem C1_resume_amended_witness :
    sW.progress.lastCompletedChapter < 2 ∧ 1 ≤ 2 ∧
      (firstGenCall
          (createBookPageByPage genOkW "OUT" "IMG" "THEME" (some sW) 2 2).trace =
        some (sW.progress.lastCompletedChapter + 1, 1) ∧
      (∀ c' p' pr,
        Event.genCall c' p' pr ∈
            (createBookPageByPage genOkW "OUT" "IMG" "THEME" (some sW) 2 2).trace →
          sW.progress.lastCompletedChapter + 1 ≤ c') ∧
      (∀ c' p', c' ≤ sW.progress.lastCompletedChapter →
        lookupContent
            (createBookPageByPage genOkW "OUT" "IMG" "THEME"
              (some sW) 2 2).mgr.bookContent c' p' =
          lookupContent sW.bookContent c' p')) :=
  ⟨by decide, by decide,
    C1_resume_amended genOkW "OUT" "IMG" "THEME" sW 2 2 (by decide) (by decide)⟩

/-- C1 counterexample: the claim says a run resumed from cursor (c, p) = (1, 1)
with pagesPerChapter = 2 (so p < pagesPerChapter) begins generation at
(1, 2); the code begins at (2, 1) instead. -/
theorem C1_resume_counterexample :
    firstGenCall (createBookPageByPage genOkW "OUT" "IMG" "THEME" (some sW) 2 2).trace =
        some (2, 1) ∧
      ((2, 1) : Nat × Nat) ≠ (1, 2) :=
  ⟨rfl, by decide⟩

/-- C3 (confirmed): when a generation call inside the sequential loop fails,
the run ends immediately after that call with exactly one further checkpoint
write (of the final state) and returns that same error; when the run
succeeds, every generation call it made had succeeded (no failure is
swallowed).  The batch controller likewise ends every failing run with one
final checkpoint write before propagating its error. -/
theorem C3_failure_checkpoint_rethrow (gen : Nat → Nat → Except String String)
    (outlineText imageUrl theme : String) (loaded : Option SavedState)
    (chapters P : Nat) :
    (∀ e, (createBookPageByPage gen outlineText imageUrl theme loaded chapters P).result =
        .error e →
      ∃ t c p pr,
        (createBookPageByPage gen outlineText imageUrl theme loaded chapters P).trace =
          t ++ [Event.progressCb c p, Event.genCall c p pr,
            Event.checkpoint
              (snapshot (createBookPageByPage gen outlineText imageUrl theme
                loaded chapters P).mgr)] ∧
        gen c p = .error e) ∧
    ((createBookPageByPage gen outlineText imageUrl theme loaded chapters P).result =
        .ok () →
      ∀ c p pr,
        Event.genCall c p pr ∈
            (createBookPageByPage gen outlineText imageUrl theme loaded chapters P).trace →
          ∃ out, gen c p = .ok out) ∧
    (∀ (translateSvc : String → String) (bOutline bTheme language : String)
        (bLoaded : Option Mono.BatchState) (bChapters : Nat)
        (superResults : List Mono.BatchResult) (e : Mono.JsErr),
      (Mono.createBookWithBatch translateSvc bOutline bLoaded bTheme bChapters
          language superResults).2.2 = .error e →
      ∃ t, (Mono.createBookWithBatch translateSvc bOutline bLoaded bTheme bChapters
          language superResults).1 = t ++ [Mono.BEvent.checkpoint]) := by
  refine ⟨?_, ?_, ?_⟩
  · intro e he
    simp only [createBookPageByPage] at he ⊢
    cases hr : (runChaptersAux gen P
        (seqChapters chapters (seqSetup outlineText imageUrl theme loaded).2)
        (seqSetup outlineText imageUrl theme loaded).2).2.2 with
    | none => simp [hr] at he
    | some e' =>
      simp only [hr] at he ⊢
      have hee : e' = e := by
        injection he
      subst hee
      obtain ⟨t, c, p, pr, ht, hgen⟩ := runChaptersAux_err gen P _ _ e' hr
      refine ⟨(seqSetup outlineText imageUrl theme loaded).1 ++ t, c, p, pr, ?_, hgen⟩
      rw [ht]
      simp
  · intro hok c p pr hm
    simp only [createBookPageByPage] at hok hm
    cases hr : (runChaptersAux gen P
        (seqChapters chapters (seqSetup outlineText imageUrl theme loaded).2)
        (seqSetup outlineText imageUrl theme loaded).2).2.2 with
    | some e' => simp [hr] at hok
    | none =>
      simp only [hr] at hm
      rcases List.mem_append.mp hm with hm | hm
      · exact absurd hm (seqSetup_no_genCall outlineText imageUrl theme loaded c p pr)
      · exact runChaptersAux_ok_genCalls gen P _ _ c p pr hr hm
  · intro translateSvc bOutline bTheme language bLoaded bChapters superResults e he
    exact ⟨[Mono.BEvent.genCall ("Create a detailed book outline for a " ++
        toString bChapters ++ "-chapter book about " ++ bTheme),
      Mono.BEvent.imageGen (coverPrompt bTheme),
      Mono.BEvent.submitBatch bChapters], rfl⟩

/-- C3 witness: a run whose generation oracle fails at unit (1, 2) ends
with the checkpoint-then-rethrow trace shape. -/
theorem C3_failure_checkpoint_rethrow_witness :
    (createBookPageByPage genFailW "OUT" "IMG" "THEME" none 1 2).result = .error "boom" ∧
      (∃ t c p pr,
        (createBookPageByPage genFailW "OUT" "IMG" "THEME" none 1 2).trace =
          t ++ [Event.progressCb c p, Event.genCall c p pr,
            Event.checkpoint
              (snapshot (createBookPageByPage genFailW "OUT" "IMG" "THEME" none 1 2).mgr)] ∧
        genFailW c p = .error "boom") :=
  ⟨rfl,
    (C3_failure_checkpoint_rethrow genFailW "OUT" "IMG" "THEME" none 1 2).1 "boom" rfl⟩

/-- C8 (corrected): a sequential run resumed from a checkpoint whose
`metadata.coverImage` is already set makes no image-generation call; but the
batch controller requests a cover image unconditionally on every run,
whatever the loaded state says. -/
theorem C8_cover_amended (gen : Nat → Nat → Except String String)
    (outlineText imageUrl theme : String) (s : SavedState) (chapters P : Nat)
    (u : String) (hcov : s.metadata.coverImage = some u) :
    (∀ pr, Event.imageGen pr ∉
      (createBookPageByPage gen outlineText imageUrl theme (some s) chapters P).trace) ∧
    (∀ (translateSvc : String → String) (bOutline bTheme language : String)
        (bLoaded : Option Mono.BatchState) (bChapters : Nat)
        (superResults : List Mono.BatchResult),
      Mono.BEvent.imageGen (coverPrompt bTheme) ∈
        (Mono.createBookWithBatch translateSvc bOutline bLoaded bTheme bChapters
          language superResults).1) := by
  constructor
  · intro pr
    have hsu : (seqSetup outlineText imageUrl theme (some s)).1 = [] := by
      simp [seqSetup, seqInit, seqCover, applyState, hcov]
    simp only [createBookPageByPage]
    cases hr : (runChaptersAux gen P
        (seqChapters chapters (seqSetup outlineText imageUrl theme (some s)).2)
        (seqSetup outlineText imageUrl theme (some s)).2).2.2 with
    | some e =>
      simp only [hr]
      intro hm
      rcases List.mem_append.mp hm with hm | hm
      · rcases List.mem_append.mp hm with hm | hm
        · rw [hsu] at hm
          simp at hm
        · exact imageGen_not_mem_runChaptersAux gen P _ _ pr hm
      · rcases List.mem_singleton.mp hm with h
        exact Event.noConfusion h
    | none =>
      simp only [hr]
      intro hm
      rcases List.mem_append.mp hm with hm | hm
      · rw [hsu] at hm
        simp at hm
      · exact imageGen_not_mem_runChaptersAux gen P _ _ pr hm
  · intro translateSvc bOutline bTheme language bLoaded bChapters superResults
    exact List.Mem.tail _ (List.Mem.head _)

/-- C8 witness: a concrete sequential resume with the cover already set
performs no image-generation call. -/
theorem C8_cover_amended_witness :
    sW.metadata.coverImage = some "cover" ∧
      ∀ pr, Event.imageGen pr ∉
        (createBookPageByPage genOkW "OUT" "IMG" "THEME" (some sW) 2 2).trace :=
  ⟨rfl,
    (C8_cover_amended genOkW "OUT" "IMG" "THEME" sW 2 2 "cover" rfl).1⟩

/-- C8 counterexample: a batch run started from a state whose cover image is
already set still performs an image-generation call, contradicting the claim
for that run. -/
theorem C8_cover_counterexample :
    bW.metadata.coverImage = some "cover" ∧
      Mono.BEvent.imageGen (coverPrompt "THEME") ∈
        (Mono.createBookWithBatch id "OUT" (some bW) "THEME" 2 "en" []).1 :=
  ⟨rfl, by decide⟩

/-! Checkpoint well-formedness machinery for C2. -/

theorem contentThrough_setContent (cm : ContentMap) (P c a : Nat) (x : String)
    (hm : contentThrough cm P c (a - 1)) (hc : 1 ≤ c) (ha : 1 ≤ a) (haP : a ≤ P) :
    contentThrough (setContent cm c a x) P c a := by
  intro c' p'
  rw [lookupContent_setContent]
  by_cases h : c = c' ∧ a = p'
  · obtain ⟨h1, h2⟩ := h
    subst h1; subst h2
    simp [unitAtOrBelow]
    omega
  · rw [if_neg h, hm c' p']
    unfold unitAtOrBelow
    constructor <;> intro h' <;>
      [exact ⟨h'.1, h'.2.1, h'.2.2.1, by omega⟩;
       exact ⟨h'.1, h'.2.1, h'.2.2.1, by omega⟩]

theorem contentThrough_chapterShift (cm : ContentMap) (P c : Nat)
    (h : contentThrough cm P c P) : contentThrough cm P (c + 1) 0 := by
  intro c' p'
  rw [h c' p']
  unfold unitAtOrBelow
  constructor <;> intro h' <;> exact ⟨h'.1, h'.2.1, h'.2.2.1, by omega⟩

theorem ckptOK_of_through (P c a : Nat) (cm : ContentMap) (ol : String) (md : Metadata)
    (hc : 1 ≤ c) (ha : 1 ≤ a) (h : contentThrough cm P c (a - 1)) :
    ckptOK P ⟨⟨c, a, "in_progress"⟩, cm, ol, md⟩ := by
  unfold ckptOK
  dsimp only
  constructor
  · intro c' p' h1 h2 h3 hb
    rw [h c' p']
    unfold unitBelow at hb
    unfold unitAtOrBelow
    exact ⟨h1, h2, h3, by omega⟩
  · intro c' p' hp
    rw [h c' p'] at hp
    unfold unitAtOrBelow at hp ⊢
    exact ⟨hp.1, hp.2.1, hp.2.2.1, by omega⟩

theorem ckptOK_snapshot_of_stateOK (P : Nat) (m : BookMgr) (h : stateOK P m) :
    ckptOK P (snapshot m) := by
  unfold ckptOK snapshot
  dsimp only
  constructor
  · intro c' p' h1 h2 h3 hb
    rw [h c' p']
    unfold unitBelow at hb
    unfold unitAtOrBelow
    exact ⟨h1, h2, h3, by omega⟩
  · intro c' p' hp
    rw [h c' p'] at hp
    exact hp

/-- Inner-loop invariant: running pages `a .. a+k-1` of chapter `c` from a
state whose content is exactly the units before unit (c, a) keeps every
checkpoint written well-formed, keeps the state well-formed, and on success
leaves the content complete through (c, P). -/
theorem runPagesAux_invariant (gen : Nat → Nat → Except String String)
    (P c : Nat) (hc : 1 ≤ c) :
    ∀ (k a : Nat) (m : BookMgr), 1 ≤ a → a + k = P + 1 →
      stateOK P m →
      contentThrough m.bookContent P c (a - 1) →
      (∀ st, Event.checkpoint st ∈ (runPagesAux gen c (List.range' a k) m).1 →
        ckptOK P st) ∧
      stateOK P (runPagesAux gen c (List.range' a k) m).2.1 ∧
      ((runPagesAux gen c (List.range' a k) m).2.2 = none →
        contentThrough (runPagesAux gen c (List.range' a k) m).2.1.bookContent P c P ∧
        (1 ≤ k →
          (runPagesAux gen c (List.range' a k) m).2.1.progressState =
            ⟨c, P, "in_progress"⟩) ∧
        (k = 0 → (runPagesAux gen c (List.range' a k) m).2.1 = m)) := by
  intro k
  induction k with
  | zero =>
    intro a m ha hak hst hth
    refine ⟨?_, ?_, ?_⟩
    · intro st hmem
      simp [runPagesAux] at hmem
    · simpa [runPagesAux] using hst
    · intro _
      refine ⟨?_, by omega, fun _ => by simp [runPagesAux]⟩
      have : a - 1 = P := by omega
      rw [this] at hth
      simpa [runPagesAux] using hth
  | succ k ih =>
    intro a m ha hak hst hth
    rw [List.range'_succ]
    cases hg : gen c a with
    | error e =>
      refine ⟨?_, ?_, ?_⟩
      · intro st hmem
        simp [runPagesAux, hg] at hmem
      · simpa [runPagesAux, hg] using hst
      · intro hnone
        simp [runPagesAux, hg] at hnone
    | ok content =>
      have haP : a ≤ P := by omega
      have hth2 : contentThrough (setContent m.bookContent c a content) P c a :=
        contentThrough_setContent m.bookContent P c a content hth hc ha haP
      have hth2' : contentThrough (setContent m.bookContent c a content) P c
          (a + 1 - 1) := by simpa using hth2
      have hst2 : stateOK P
          { (saveProgress m content c a).2 with
            bookContent := setContent (saveProgress m content c a).2.bookContent c a content } := by
        show contentThrough (setContent m.bookContent c a content) P c a
        exact hth2
      have hrec := ih (a + 1)
        { (saveProgress m content c a).2 with
          bookContent := setContent (saveProgress m content c a).2.bookContent c a content }
        (by omega) (by omega) hst2 hth2'
      refine ⟨?_, ?_, ?_⟩
      · intro st hmem
        simp only [runPagesAux, hg] at hmem
        rcases List.mem_append.mp hmem with h | h
        · rcases List.mem_append.mp h with h | h
          · rcases List.mem_cons.mp h with h | h
            · exact Event.noConfusion h
            rcases List.mem_cons.mp h with h | h
            · exact Event.noConfusion h
            · simp at h
          · simp only [saveProgress] at h
            rcases List.mem_cons.mp h with h | h
            · exact Event.noConfusion h
            rcases List.mem_cons.mp h with h | h
            · injection h with h'
              subst h'
              exact ckptOK_of_through P c a m.bookContent m.outline m.metadata hc ha hth
            · simp at h
        · exact hrec.1 st h
      · simp only [runPagesAux, hg]
        exact hrec.2.1
      · intro hnone
        simp only [runPagesAux, hg] at hnone
        have := hrec.2.2 hnone
        refine ⟨?_, ?_, by omega⟩
        · simp only [runPagesAux, hg]
          exact this.1
        · intro _
          simp only [runPagesAux, hg]
          rcases Nat.eq_zero_or_pos k with hk | hk
          · subst hk
            rw [this.2.2 rfl]
            have : a = P := by omega
            subst this
            rfl
          · exact this.2.1 hk

/-- Outer-loop invariant: every checkpoint written while running chapters
`c₀ ..` from a well-formed state is well-formed, and the final state is
well-formed. -/
theorem runChaptersAux_invariant (gen : Nat → Nat → Except String String) (P : Nat) :
    ∀ (n c₀ : Nat) (m : BookMgr), 1 ≤ c₀ →
      stateOK P m →
      contentThrough m.bookContent P c₀ 0 →
      (∀ st, Event.checkpoint st ∈ (runChaptersAux gen P (List.range' c₀ n) m).1 →
        ckptOK P st) ∧
      stateOK P (runChaptersAux gen P (List.range' c₀ n) m).2.1 := by
  intro n
  induction n with
  | zero =>
    intro c₀ m hc hst hth
    constructor
    · intro st hmem
      simp [runChaptersAux] at hmem
    · simpa [runChaptersAux] using hst
  | succ n ih =>
    intro c₀ m hc hst hth
    rw [List.range'_succ]
    have hplist : pageList P = List.range' 1 P := rfl
    have hpages := runPagesAux_invariant gen P c₀ hc P 1 m (by omega) (by omega) hst
      (by simpa using hth)
    rw [← hplist] at hpages
    cases hr : (runPagesAux gen c₀ (pageList P) m).2.2 with
    | some e =>
      constructor
      · intro st hmem
        simp only [runChaptersAux, hr] at hmem
        exact hpages.1 st hmem
      · simp only [runChaptersAux, hr]
        exact hpages.2.1
    | none =>
      have hsucc := hpages.2.2 hr
      have hstm1 : stateOK P (runPagesAux gen c₀ (pageList P) m).2.1 := by
        rcases Nat.eq_zero_or_pos P with hP | hP
        · subst hP
          rw [hsucc.2.2 rfl]
          exact hst
        · show contentThrough _ P _ _
          rw [hsucc.2.1 hP]
          show contentThrough _ P c₀ P
          exact hsucc.1
      have hthm1 : contentThrough (runPagesAux gen c₀ (pageList P) m).2.1.bookContent
          P (c₀ + 1) 0 :=
        contentThrough_chapterShift _ P c₀ hsucc.1
      have hrec := ih (c₀ + 1) (runPagesAux gen c₀ (pageList P) m).2.1
        (by omega) hstm1 hthm1
      constructor
      · intro st hmem
        simp only [runChaptersAux, hr] at hmem
        rcases List.mem_append.mp hmem with h | h
        · rcases List.mem_append.mp h with h | h
          · exact hpages.1 st h
          · rcases List.mem_singleton.mp h with h'
            injection h' with h''
            subst h''
            exact ckptOK_snapshot_of_stateOK P _ hstm1
        · exact hrec.1 st h
      · simp only [runChaptersAux, hr]
        exact hrec.2

/-- C2 (corrected): in a sequential run started from no checkpoint, every
checkpoint written is cursor-consistent in the weakened sense: every valid
unit strictly below the cursor has a content entry (no gaps), and every
content entry lies at or below the cursor — but the cursor unit itself may
be missing from the checkpoint content map, because `saveProgress` writes
the checkpoint before the caller copies the page into `bookContent` (the
cursor unit is persisted only as the per-unit artifact written immediately
before, as the second conjunct shows). -/
theorem C2_checkpoint_amended (gen : Nat → Nat → Except String String)
    (outlineText imageUrl theme : String) (chapters P : Nat) :
    (∀ st, Event.checkpoint st ∈
        (createBookPageByPage gen outlineText imageUrl theme none chapters P).trace →
      ckptOK P st) ∧
    (∀ (m : BookMgr) (content : String) (c p : Nat),
      (saveProgress m content c p).1 =
        [Event.pageArtifact c p content,
         Event.checkpoint ⟨⟨c, p, "in_progress"⟩, m.bookContent, m.outline, m.metadata⟩]) := by
  constructor
  · intro st hm
    have hsu : (seqSetup outlineText imageUrl theme none).2 =
        ⟨⟨0, 0, "not_started"⟩, [], outlineText, ⟨some imageUrl⟩⟩ := by
      simp [seqSetup, seqInit, seqCover, initialBookMgr]
    have hemp : ∀ c₀ : Nat, c₀ ≤ 1 → contentThrough ([] : ContentMap) P c₀ 0 := by
      intro c₀ hc₀ c' p'
      simp [lookupContent, alistGet]
      unfold unitAtOrBelow
      omega
    have hst0 : stateOK P (seqSetup outlineText imageUrl theme none).2 := by
      rw [hsu]
      exact hemp 0 (by omega)
    have hth0 : contentThrough (seqSetup outlineText imageUrl theme none).2.bookContent
        P 1 0 := by
      rw [hsu]
      exact hemp 1 (by omega)
    have hchap := runChaptersAux_invariant gen P chapters 1
      (seqSetup outlineText imageUrl theme none).2 (by omega) hst0 hth0
    have hchs : seqChapters chapters (seqSetup outlineText imageUrl theme none).2 =
        List.range' 1 chapters := by
      rw [seqChapters, hsu]
      simp
    simp only [createBookPageByPage] at hm
    rw [hchs] at hm
    cases hr : (runChaptersAux gen P (List.range' 1 chapters)
        (seqSetup outlineText imageUrl theme none).2).2.2 with
    | some e =>
      simp only [hr] at hm
      rcases List.mem_append.mp hm with h | h
      · rcases List.mem_append.mp h with h | h
        · exact absurd h (seqSetup_no_checkpoint outlineText imageUrl theme none st)
        · exact hchap.1 st h
      · rcases List.mem_singleton.mp h with h'
        injection h' with h''
        subst h''
        exact ckptOK_snapshot_of_stateOK P _ hchap.2
    | none =>
      simp only [hr] at hm
      rcases List.mem_append.mp hm with h | h
      · exact absurd h (seqSetup_no_checkpoint outlineText imageUrl theme none st)
      · exact hchap.1 st h
  · intro m content c p
    rfl

/-- C2 witness: a checkpoint of a concrete fresh run (1 chapter, 2 pages)
satisfies the amended well-formedness. -/
theorem C2_checkpoint_amended_witness :
    Event.checkpoint ⟨⟨1, 2, "in_progress"⟩, [(1, [(1, "PAGE")])], "OUT", ⟨some "IMG"⟩⟩ ∈
        (createBookPageByPage genOkW "OUT" "IMG" "TH" none 1 2).trace ∧
      ckptOK 2 ⟨⟨1, 2, "in_progress"⟩, [(1, [(1, "PAGE")])], "OUT", ⟨some "IMG"⟩⟩ :=
  ⟨by decide, (C2_checkpoint_amended genOkW "OUT" "IMG" "TH" 1 2).1 _ (by decide)⟩

/-- C2 counterexample: in the same fresh run the first checkpoint written
has cursor (1, 1) and an empty content map, although page 1 of chapter 1
had been generated and persisted as a per-unit artifact just before — so
`content[c][p] exists iff generated and checkpointed` fails at the very
unit the cursor references. -/
theorem C2_checkpoint_counterexample :
    firstCheckpoint (createBookPageByPage genOkW "OUT" "IMG" "TH" none 1 2).trace =
        some ⟨⟨1, 1, "in_progress"⟩, [], "OUT", ⟨some "IMG"⟩⟩ ∧
      Event.pageArtifact 1 1 "PAGE" ∈
        (createBookPageByPage genOkW "OUT" "IMG" "TH" none 1 2).trace ∧
      lookupContent ([] : ContentMap) 1 1 = none :=
  ⟨rfl, by decide, rfl⟩

/-- C4 (confirmed): the parent `BookManager` class defines no method named
`processBatchResults`, so `BatchBookManager.processBatchResults` throws a
TypeError on its first statement: for every receiver state, file id and
would-be result list, it emits no event, changes nothing (no chapter result
is merged into `bookContent`, edited, or checkpointed) and returns the
TypeError. -/
theorem C4_processBatchResults_throws :
    "processBatchResults" ∉ Mono.bookManagerMethodNames ∧
      ∀ (m : Mono.BatchState) (fid : String) (rs : List Mono.BatchResult),
        Mono.processBatchResults m fid rs =
          ([], m, .error (.typeError "super.processBatchResults is not a function")) :=
  ⟨by decide, fun _ _ _ => rfl⟩

/-- C4 witness: a concrete invocation emits nothing, leaves the state
untouched and returns the TypeError. -/
theorem C4_processBatchResults_throws_witness :
    Mono.processBatchResults bW "any_file" [⟨1, "chapter text"⟩] =
      ([], bW, .error (.typeError "super.processBatchResults is not a function")) :=
  C4_processBatchResults_throws.2 bW "any_file" [⟨1, "chapter text"⟩]

/-- C6 (code bug): `addCharacter` replaces an existing record wholesale.
At the failing input — character "Ava" present with details "old hero",
firstAppearance 1 and appearances {1, 2}, current chapter 3 — the merge
resets appearances to {3}, resets firstAppearance to 3 and overwrites the
stored details, instead of adding chapter 3 to the appearance set and
keeping the rest.  For a name not yet present (second conjunct) insertion
matches the claim. -/
theorem C6_addCharacter_overwrites :
    (Mono.addCharacter charW "Ava" "new villain").characters =
        [("Ava", ⟨"new villain", 3, [3]⟩)] ∧
      (Mono.addCharacter charW "Zed" "newcomer").characters =
        [("Ava", ⟨"old hero", 1, [1, 2]⟩), ("Zed", ⟨"newcomer", 3, [3]⟩)] :=
  ⟨rfl, rfl⟩

/-- C7 (corrected): `translateContent` itself raises the
unsupported-language error before making its own generation call — the
call returns the error with no generation event emitted. -/
theorem C7_unsupported_language_amended (translateSvc : String → String)
    (content lang : String) (h : lang ∉ Mono.supportedLanguages) :
    Mono.translateContent translateSvc content lang =
      ([], .error (.unsupportedLanguage lang)) := by
  unfold Mono.translateContent
  rw [if_neg h]

/-- C7 witness: the unsupported language "xx" is rejected by
`translateContent` with no generation event. -/
theorem C7_unsupported_language_amended_witness :
    "xx" ∉ Mono.supportedLanguages ∧
      Mono.translateContent id "hello" "xx" = ([], .error (.unsupportedLanguage "xx")) :=
  ⟨by decide, C7_unsupported_language_amended id "hello" "xx" (by decide)⟩

/-- C7 counterexample: a batch run requesting the unsupported language "xx"
opens with a generation call (the outline request is the very first event)
and terminates with the TypeError from `processBatchResults`; the
unsupported-language error is never raised before a generation call in that
run. -/
theorem C7_unsupported_language_counterexample :
    "xx" ∉ Mono.supportedLanguages ∧
      (Mono.createBookWithBatch id "OUT" none "TH" 2 "xx" []).1.head? =
        some (Mono.BEvent.genCall
          "Create a detailed book outline for a 2-chapter book about TH") ∧
      (Mono.createBookWithBatch id "OUT" none "TH" 2 "xx" []).2.2 =
        .error (.typeError "super.processBatchResults is not a function") :=
  ⟨by decide, rfl, rfl⟩

/-- C9 (corrected): `StateManager.loadState` normalizes only the not-found
read failure (ENOENT) to the absent-state result and propagates every other
failure; but the monolithic part_002 `BookManager.loadState` returns the
absent-state result `false` for every load failure, whatever its cause. -/
theorem C9_loadState_amended {St : Type} (e : Mono.ReadErr)
    (h : e.code ≠ "ENOENT") :
    @StateManager.loadState St (.error e) = .error e ∧
      @StateManager.loadState St (.error ⟨"ENOENT"⟩) = .ok none ∧
      (∀ st : St, StateManager.loadState (.ok st) = .ok (some st)) ∧
      (∀ (e' : Mono.ReadErr) (m : Mono.FullState),
        Mono.monoLoadState (.error e') m = (false, m)) := by
  refine ⟨?_, rfl, fun _ => rfl, fun _ _ => rfl⟩
  have hred : @StateManager.loadState St (.error e) =
      if e.code = "ENOENT" then .ok none else .error e := rfl
  rw [hred, if_neg h]

/-- C9 witness: a concrete non-ENOENT failure (EACCES) propagates through
`StateManager.loadState`. -/
theorem C9_loadState_amended_witness :
    (⟨"EACCES"⟩ : Mono.ReadErr).code ≠ "ENOENT" ∧
      @StateManager.loadState Nat (.error ⟨"EACCES"⟩) = .error ⟨"EACCES"⟩ :=
  ⟨by decide, (@C9_loadState_amended Nat ⟨"EACCES"⟩ (by decide)).1⟩

/-- C9 counterexample: the part_002 loader turns the non-not-found failure
EACCES into the absent-state result `false` with the state unchanged,
instead of propagating it. -/
theorem C9_loadState_counterexample :
    (⟨"EACCES"⟩ : Mono.ReadErr).code ≠ "ENOENT" ∧
      Mono.monoLoadState (.error ⟨"EACCES"⟩) fs0 = (false, fs0) :=
  ⟨by decide, rfl⟩

/-! Save/load round trip (C10). -/

theorem decodeAll_charEntries (l : List (String × Mono.Json)) :
    Mono.decodeAll Mono.decodeCharEntry
        (l.map (fun kv => Mono.Json.arr [Mono.Json.str kv.1, kv.2])) = some l := by
  induction l with
  | nil => rfl
  | cons kv t ih =>
    simp only [List.map_cons, Mono.decodeAll, Mono.decodeCharEntry, ih]

theorem decodeAll_strs (l : List String) :
    Mono.decodeAll Mono.decodeStr (l.map Mono.Json.str) = some l := by
  induction l with
  | nil => rfl
  | cons x t ih =>
    simp only [List.map_cons, Mono.decodeAll, Mono.decodeStr, ih]

theorem alistSet_append_of_not_mem {β : Type} (acc : List (String × β)) (k : String)
    (v : β) (h : ∀ kv ∈ acc, k ≠ kv.1) :
    alistSet acc k v = acc ++ [(k, v)] := by
  induction acc with
  | nil => rfl
  | cons kv t ih =>
    have hk : kv.1 ≠ k := fun he => h kv (List.mem_cons_self _ _) he.symm
    obtain ⟨k₀, v₀⟩ := kv
    simp only [alistSet, if_neg hk]
    rw [ih (fun kv' hm => h kv' (List.mem_cons_of_mem _ hm))]
    rfl

theorem foldl_alistSet_eq_append {β : Type} :
    ∀ (l acc : List (String × β)), (l.map Prod.fst).Nodup →
      (∀ kv ∈ l, ∀ kv' ∈ acc, kv.1 ≠ kv'.1) →
      l.foldl (fun acc kv => alistSet acc kv.1 kv.2) acc = acc ++ l := by
  intro l
  induction l with
  | nil => intro acc _ _; simp
  | cons kv t ih =>
    intro acc hnd hdisj
    simp only [List.foldl_cons]
    rw [alistSet_append_of_not_mem acc kv.1 kv.2
      (fun kv' hm => hdisj kv (List.mem_cons_self _ _) kv' hm)]
    have h1 : (t.map Prod.fst).Nodup := by
      simp only [List.map_cons, List.nodup_cons] at hnd
      exact hnd.2
    have hknot : kv.1 ∉ t.map Prod.fst := by
      simp only [List.map_cons, List.nodup_cons] at hnd
      exact hnd.1
    have h2 : ∀ kv₁ ∈ t, ∀ kv' ∈ acc ++ [(kv.1, kv.2)], kv₁.1 ≠ kv'.1 := by
      intro kv₁ hm kv' hm'
      rcases List.mem_append.mp hm' with h' | h'
      · exact hdisj kv₁ (List.mem_cons_of_mem _ hm) kv' h'
      · rcases List.mem_singleton.mp h' with rfl
        intro he
        exact hknot (he ▸ List.mem_map_of_mem Prod.fst hm)
    rw [ih (acc ++ [(kv.1, kv.2)]) h1 h2]
    simp

theorem jsMapFromEntries_id {β : Type} (l : List (String × β))
    (h : (l.map Prod.fst).Nodup) : Mono.jsMapFromEntries l = l := by
  unfold Mono.jsMapFromEntries
  simpa using foldl_alistSet_eq_append l [] h (by simp)

theorem foldl_setInsert_eq_append :
    ∀ (l acc : List String), l.Nodup → (∀ x ∈ l, x ∉ acc) →
      l.foldl (fun acc x => if x ∈ acc then acc else acc ++ [x]) acc = acc ++ l := by
  intro l
  induction l with
  | nil => intro acc _ _; simp
  | cons x t ih =>
    intro acc hnd hdisj
    simp only [List.foldl_cons, if_neg (hdisj x (List.mem_cons_self _ _))]
    have h1 : t.Nodup := (List.nodup_cons.mp hnd).2
    have hxnot : x ∉ t := (List.nodup_cons.mp hnd).1
    have h2 : ∀ y ∈ t, y ∉ acc ++ [x] := by
      intro y hm hmem
      rcases List.mem_append.mp hmem with h' | h'
      · exact hdisj y (List.mem_cons_of_mem _ hm) h'
      · rcases List.mem_singleton.mp h' with rfl
        exact hxnot hm
    rw [ih (acc ++ [x]) h1 h2]
    simp

theorem jsSetFromList_id (l : List String) (h : l.Nodup) :
    Mono.jsSetFromList l = l := by
  unfold Mono.jsSetFromList
  simpa using foldl_setInsert_eq_append l [] h (by simp)

/-- C10 (confirmed): for an in-memory state whose fields hold
JSON-serializable values (the model type), `saveState` followed by
`loadState` is the identity: progress, bookContent, outline and metadata
come back equal, the characters Map is rebuilt with the same entries and
the plotPoints Set with the same elements.  The hypotheses record that the
saved entry lists come from a `Map` and a `Set` (no duplicate keys or
elements). -/
theorem C10_saveLoad_roundTrip (s : Mono.FullState)
    (hchars : (s.characters.map Prod.fst).Nodup) (hpp : s.plotPoints.Nodup) :
    Mono.loadState (Mono.saveState s) = some s := by
  obtain ⟨prog, chars, pps, bc, ol, md⟩ := s
  show Mono.loadState (Mono.Json.obj
    [("progress", prog),
     ("characters", .arr (chars.map (fun kv => .arr [.str kv.1, kv.2]))),
     ("plotPoints", .arr (pps.map Mono.Json.str)),
     ("bookContent", bc), ("outline", ol), ("metadata", md)]) = _
  simp only [Mono.loadState, Mono.getField, alistGet, String.reduceEq, reduceIte,
    decodeAll_charEntries, decodeAll_strs]
  rw [jsMapFromEntries_id chars hchars, jsSetFromList_id pps hpp]

/-- C10 witness: the round trip at a concrete state with two characters and
two plot points. -/
theorem C10_saveLoad_roundTrip_witness :
    (fsW.characters.map Prod.fst).Nodup ∧ fsW.plotPoints.Nodup ∧
      Mono.loadState (Mono.saveState fsW) = some fsW :=
  ⟨by decide, by decide, C10_saveLoad_roundTrip fsW (by decide) (by decide)⟩

/-! Prompt context (C5). -/

/-- C5 (corrected): what each sequential pipeline actually feeds the
generation service.  (1) In the part_002 pipeline the previous-page context
is the full text of the already generated pages of the same chapter in
increasing page order; (2) its prompt embeds, in order: the previous pages,
then the chapter outline entry, then the character table, then the
plot-point set (pages come before the outline, not after as the claim
orders them); (3)–(4) in the src/core pipeline every generation call uses
the fixed template over (page, chapter, full outline) only — previously
generated pages, characters and plot points are absent from the context. -/
theorem C5_context_amended :
    (∀ (store : Nat → Nat → Option String) (c n : Nat),
      Mono.collectPreviousPages store c n = (List.range' 1 n).filterMap (store c)) ∧
    (∀ (chapterNum pageNum : Nat) (prev outl chars plots : String),
      Mono.pagePrompt chapterNum pageNum prev outl chars plots =
        ("You are writing page " ++ toString pageNum ++ " of chapter " ++
          toString chapterNum ++ ".\nContext from previous pages:\n") ++ prev ++
        "\nCurrent outline for this chapter:\n" ++ outl ++
        "\nKnown characters:\n" ++ chars ++
        "\nImportant plot points:\n" ++ plots ++
        "\nWrite the next page maintaining consistency with the story.") ∧
    (∀ (gen : Nat → Nat → Except String String) (ot iu th : String) (C P c p : Nat)
        (pr : String),
      Event.genCall c p pr ∈ (createBookPageByPage gen ot iu th none C P).trace →
        pr = mkPrompt p c ot) ∧
    (∀ (p c : Nat) (ot : String),
      mkPrompt p c ot = "Write page " ++ toString p ++ " of chapter " ++ toString c ++
        ". Use the following outline as context: " ++ ot) := by
  refine ⟨?_, ?_, ?_, fun _ _ _ => rfl⟩
  · intro store c n
    induction n with
    | zero => rfl
    | succ n ih =>
      show Mono.collectPreviousPages store c n ++ _ = _
      rw [ih, List.range'_concat, show 1 + 1 * n = n + 1 from by omega,
        List.filterMap_append]
      congr 1
      cases h : store c (n + 1) <;> simp [h]
  · intro chapterNum pageNum prev outl chars plots
    simp [Mono.pagePrompt, String.append_assoc]
  · intro gen ot iu th C P c p pr hm
    have hout : (seqSetup ot iu th none).2.outline = ot := by
      simp [seqSetup, seqInit, seqCover, initialBookMgr]
    simp only [createBookPageByPage] at hm
    cases hr : (runChaptersAux gen P
        (seqChapters C (seqSetup ot iu th none).2) (seqSetup ot iu th none).2).2.2 with
    | some e =>
      simp only [hr] at hm
      rcases List.mem_append.mp hm with h | h
      · rcases List.mem_append.mp h with h | h
        · exact absurd h (seqSetup_no_genCall ot iu th none c p pr)
        · have := runChaptersAux_genCall_mem gen P _ _ c p pr h
          rw [this.2.2, hout]
      · rcases List.mem_singleton.mp h with h'
        exact Event.noConfusion h'
    | none =>
      simp only [hr] at hm
      rcases List.mem_append.mp hm with h | h
      · exact absurd h (seqSetup_no_genCall ot iu th none c p pr)
      · have := runChaptersAux_genCall_mem gen P _ _ c p pr h
        rw [this.2.2, hout]

/-- C5 witness: concrete instances of the amended facts — the previous-page
collection for page 3 visits pages 1 and 2 in order, and the src/core
prompt for unit (1, 2) of a concrete run is the outline-only template. -/
theorem C5_context_amended_witness :
    Mono.collectPreviousPages (fun _ p => some (toString p)) 1 2 =
        (List.range' 1 2).filterMap ((fun (_ p : Nat) => some (toString p)) 1) ∧
      Event.genCall 1 2
          "Write page 2 of chapter 1. Use the following outline as context: OUT" ∈
        (createBookPageByPage genPrevW "OUT" "IMG" "TH" none 1 2).trace ∧
      ("Write page 2 of chapter 1. Use the following outline as context: OUT" : String) =
        mkPrompt 2 1 "OUT" :=
  ⟨C5_context_amended.1 (fun _ p => some (toString p)) 1 2, by decide,
    C5_context_amended.2.2.1 genPrevW "OUT" "IMG" "TH" 1 2 1 2 _ (by decide)⟩

/-- C5 counterexample: in the src/core pipeline, page (1, 1) was generated
with the text UNIQUEPREVPAGETEXT, yet the prompt sent for the next unit
(1, 2) does not contain that text — while any context assembled as the
claim describes (outline excerpt, then the full text of the previously
generated pages, then characters, then plot points) does contain it.  The
prompt is therefore not the claimed concatenation. -/
theorem C5_context_counterexample :
    (findGenCallPrompt (createBookPageByPage genPrevW "OUT" "IMG" "TH" none 1 2).trace
        1 2).map (strContains "UNIQUEPREVPAGETEXT") = some false ∧
      strContains "UNIQUEPREVPAGETEXT"
        (specOrderContext "OUT" "UNIQUEPREVPAGETEXT" "CHARS" "PLOTS") = true :=
  ⟨by decide, by decide⟩

end BookGen
